import Mathlib

/-!
Verification of the composition / result-collection / lifecycle-state core of
the remoulade task-queue client.

The Python source is shallowly embedded:
* `Comp` is the dynamic tree of compositions (a `Message`, a `group`, or a
  `pipeline` object), mirroring Python's runtime `isinstance` dispatch.
* `pipeline.__init__` / `group.__init__` become `pipeline.init` / `group.init`.
* `pipeline.build` / `group.build` become a mutual recursion that additionally
  returns the (value of the) possibly mutated `last_options` dictionary — the
  Python code mutates the caller's dict in place when it stamps
  `pipeline_id` onto a truthy `last_options` — the emitted broker events, and a
  log recording, for each direct child, the options dictionary passed to that
  child's `build` together with the units that build produced.  The log is an
  instrumentation of the call sites that the theorems quantify over; it does
  not alter the computation.
* Python loops over a list become recursion that processes the tail first
  when the loop is over `reversed(children)`, head first otherwise; a method
  called on a child object becomes a mutually recursive function on the head,
  so that all recursion is structural.
* Fallible Python operations (raised exceptions, unreachable-by-construction
  branches) are embedded with `Except String` / `Option`.
* `CollectionResults.get` is embedded as the fully drained run of the
  generator, with a millisecond clock that advances only while the external
  result backend executes a fetch (`dur` gives each fetch's duration).
-/

/-- GroupInfo value object (composition.py lines 28-41): group_id,
children_count, cancel_on_error.  `asdict` is the identity on this record. -/
structure GroupInfo where
  group_id : String
  children_count : Nat
  cancel_on_error : Bool
deriving DecidableEq

/-- Dynamic composition tree: a built-able node is a Message (modelled from the
spec: a Unit has an id, a target actor and options; args/kwargs play no role in
composition), a constructed group object, or a constructed pipeline object. -/
inductive Comp where
  | msg (message_id : String) (actor_name : String)
  | grp (group_id : String) (cancel_on_error : Bool) (children : List Comp)
  | pipe (pipeline_id : String) (children : List Comp)

/-- Nested message-id structure as yielded by the `message_ids` properties:
a plain id or a list of nested structures. -/
inductive IdTree where
  | id (s : String)
  | l (ts : List IdTree)

/-- Item yielded by the `messages` properties: a child object as-is, or the
materialized list of a nested pipeline's `messages`. -/
inductive MsgItem where
  | one (c : Comp)
  | sub (l : List MsgItem)

/-- A built message (the dict produced by `Message.build`/`asdict`).  Modelled
from the spec: a built Unit carries its id, actor name and the routing options
assigned by the Builder (`pipe_target`, `pipeline_id`, `group_info`). -/
inductive BuiltMessage where
  | mk (message_id : String) (actor_name : String)
      (pipe_target : Option (List BuiltMessage))
      (pipeline_id : Option String)
      (group_info : Option GroupInfo)

def BuiltMessage.mId : BuiltMessage → String
  | .mk i _ _ _ _ => i

def BuiltMessage.aName : BuiltMessage → String
  | .mk _ a _ _ _ => a

def BuiltMessage.pTarget : BuiltMessage → Option (List BuiltMessage)
  | .mk _ _ pt _ _ => pt

def BuiltMessage.pId : BuiltMessage → Option String
  | .mk _ _ _ pid _ => pid

def BuiltMessage.gInfo : BuiltMessage → Option GroupInfo
  | .mk _ _ _ _ gi => gi

/-- Modelled from the spec: `Message.asdict` serializes a built Unit; the
serialized form is used verbatim as a `pipe_target` entry, so we embed it as
the identity on `BuiltMessage`. -/
def asdict : BuiltMessage → BuiltMessage := fun m => m

/-- The options dictionary manipulated by the Builder.  The only keys the
builder ever reads or writes are `pipe_target`, `pipeline_id` and
`group_info`; an absent key is `none` and the empty dict is all-`none`. -/
structure BOptions where
  pipe_target : Option (List BuiltMessage)
  pipeline_id : Option String
  group_info : Option GroupInfo

/-- Python truthiness of an options dict: `last_options or {}` takes the
dict itself iff it is non-empty. -/
def BOptions.truthy : BOptions → Bool
  | ⟨none, none, none⟩ => false
  | _ => true

/-- Instrumentation record: one entry per direct child built, holding the
options dictionary passed to that child's `build` call and the list of built
units that call returned. -/
structure StepLog where
  opts : BOptions
  built : List BuiltMessage

/-- Broker events emitted through `emit_before`. -/
inductive Event where
  | build_messages_pipeline (pipeline_id : String) (messages : List MsgItem)
  | build_group_pipeline (group_id : String) (message_ids : List IdTree)

def Comp.isPipeB : Comp → Bool
  | .pipe _ _ => true
  | _ => false

def Comp.isGrpB : Comp → Bool
  | .grp _ _ _ => true
  | _ => false

def Comp.isMsgB : Comp → Bool
  | .msg _ _ => true
  | _ => false

mutual

/-- One child of pipeline.message_ids (composition.py lines 118-124): a group
child yields the list of the group's message_ids, any other child yields
`child.message_id` — which on a pipeline child would raise AttributeError
(`none`). -/
def pipeline.childIds : Comp → Option IdTree
  | .msg i _ => some (.id i)
  | .grp _ _ cs => (group.message_ids cs).map IdTree.l
  | .pipe _ _ => none

/-- pipeline.message_ids (composition.py lines 118-124). -/
def pipeline.message_ids : List Comp → Option (List IdTree)
  | [] => some []
  | c :: rest =>
      match pipeline.childIds c, pipeline.message_ids rest with
      | some t, some r => some (t :: r)
      | _, _ => none

/-- One child of group.message_ids (composition.py lines 237-243): a pipeline
child yields the list of the pipeline's message_ids, any other child yields
`child.message_id` — which on a group child would raise AttributeError
(`none`). -/
def group.childIds : Comp → Option IdTree
  | .msg i _ => some (.id i)
  | .pipe _ cs => (pipeline.message_ids cs).map IdTree.l
  | .grp _ _ _ => none

/-- group.message_ids (composition.py lines 237-243). -/
def group.message_ids : List Comp → Option (List IdTree)
  | [] => some []
  | c :: rest =>
      match group.childIds c, group.message_ids rest with
      | some t, some r => some (t :: r)
      | _, _ => none

end

mutual

/-- One child of the `messages` property (identical in pipeline and group):
a pipeline child is yielded as the materialized list of its own `messages`,
any other child is yielded as-is. -/
def compMessage : Comp → MsgItem
  | .pipe _ cs => .sub (compMessages cs)
  | c => .one c

/-- The `messages` property of a child list. -/
def compMessages : List Comp → List MsgItem
  | [] => []
  | c :: rest => compMessage c :: compMessages rest

end

/-- Modelled from the spec: `Message.copy` produces a logically independent
value copy of a Unit, so on this value embedding it is the identity. -/
def msgCopy : Comp → Comp := fun c => c

/-- Child-list flattening performed by pipeline.__init__ (composition.py lines
65-71): a pipeline child contributes its own children in place, a group child
is appended as-is, a message child is appended as a copy. -/
def flattenChildren : List Comp → List Comp
  | [] => []
  | .pipe _ cs :: rest => cs ++ flattenChildren rest
  | .grp g c cs :: rest => .grp g c cs :: flattenChildren rest
  | .msg i a :: rest => msgCopy (.msg i a) :: flattenChildren rest

/-- pipeline.__init__ (composition.py lines 59-74): flatten the children,
then emit the `build_messages_pipeline` event carrying the pipeline id and the
`messages` property.  Returns the constructed object and the emitted events. -/
def pipeline.init (children : List Comp) (pid : String) : Comp × List Event :=
  let flat := flattenChildren children
  (.pipe pid flat, [Event.build_messages_pipeline pid (compMessages flat)])

/-- group.__init__ (composition.py lines 188-199): raise ValueError as soon as
a child is a group; otherwise keep the children as-is.  No event is emitted at
construction, hence the empty event list. -/
def group.init (gid : String) (coe : Bool) (children : List Comp) :
    Except String (Comp × List Event) :=
  if children.any Comp.isGrpB then .error "Groups of groups are not supported"
  else .ok (.grp gid coe children, [])

/-- Modelled from the spec: `Message.build(options)` produces the submittable
Unit carrying the routing options the Builder assigned to it. -/
def Message.build (i a : String) (opts : BOptions) : BuiltMessage :=
  .mk i a opts.pipe_target opts.pipeline_id opts.group_info

/-- One iteration's options computation in pipeline.build (composition.py
lines 93-97): if `next_child` is truthy (a non-empty list) the options are a
fresh dict with the serialized next units as `pipe_target`; otherwise
`options = last_options or {}`.  Then `options["pipeline_id"] = pid` — which,
when `options` aliases a truthy `last_options`, mutates the caller's dict:
the second component is the resulting value of `last_options`. -/
def pipeOptions (pid : String) (next_child : Option (List BuiltMessage))
    (lo1 : Option BOptions) : BOptions × Option BOptions :=
  match next_child with
  | some (m :: ms) => (BOptions.mk (some ((m :: ms).map asdict)) (some pid) none, lo1)
  | _ =>
    match lo1 with
    | some o =>
        if o.truthy then
          (BOptions.mk o.pipe_target (some pid) o.group_info,
           some (BOptions.mk o.pipe_target (some pid) o.group_info))
        else (BOptions.mk none (some pid) none, lo1)
    | none => (BOptions.mk none (some pid) none, none)

/-- The merge `options = {"group_info": self.info.asdict(), **options}` of
group.build (composition.py line 221): an inherited `group_info` key
overrides the group's own info. -/
def groupMerge (gid : String) (coe : Bool) (count : Nat) (o : BOptions) : BOptions :=
  BOptions.mk o.pipe_target o.pipeline_id
    (match o.group_info with
     | some g => some g
     | none => some (GroupInfo.mk gid count coe))

mutual

/-- pipeline.build (composition.py lines 76-103).  The Python loop walks
`reversed(children)`; here `child :: rest` recurses on `rest` first, so `rest`
is processed earlier in time, exactly as in the reversed loop.  Returns the
final `next_child` (`none` is Python's `None`, `some l` a list), the value of
the `last_options` dict after any in-place `pipeline_id` mutation, the
emitted events, and one `StepLog` entry per child in processing order. -/
def pipeline.buildAux : String → List Comp → Option BOptions →
    Except String (Option (List BuiltMessage) × Option BOptions × List Event × List StepLog)
  | _, [], lo => .ok (none, lo, [], [])
  | pid, child :: rest, lo =>
    match pipeline.buildAux pid rest lo with
    | .error e => .error e
    | .ok (next_child, lo1, evsR, logR) =>
      match pipeline.buildChild child (pipeOptions pid next_child lo1).1 with
      | .error e => .error e
      | .ok (ms, evsC) =>
          .ok (some ms, (pipeOptions pid next_child lo1).2, evsR ++ evsC,
               logR ++ [⟨(pipeOptions pid next_child lo1).1, ms⟩])

/-- Build of one pipeline child (composition.py lines 98-101): a group child
runs group.build with the (non-None) options — inlined here: emit the
`build_group_pipeline` event with the group's materialized message_ids, merge
`group_info` into the options, build the group children; a message child is
`[child.build(options)]`; a pipeline child cannot occur (children are
flattened) — Python would call `child.build(options)` positionally and
raise TypeError since pipeline.build only accepts keyword `last_options`. -/
def pipeline.buildChild : Comp → BOptions →
    Except String (List BuiltMessage × List Event)
  | .msg i a, options => .ok ([Message.build i a options], [])
  | .grp gid coe gcs, options =>
      match group.message_ids gcs with
      | none => .error "AttributeError: a nested group has no message_id"
      | some ids =>
        match group.buildChildren gcs (groupMerge gid coe gcs.length options) with
        | .error e => .error e
        | .ok (ms, _, evs, _) => .ok (ms, Event.build_group_pipeline gid ids :: evs)
  | .pipe _ _, _ => .error "TypeError: pipeline.build takes keyword-only last_options"

/-- The child loop of group.build (composition.py lines 222-227).  The same
options dict is passed to every child; a pipeline child may mutate it in
place (stamping its pipeline_id), so the possibly-updated dict is threaded to
the following children and returned. -/
def group.buildChildren : List Comp → BOptions →
    Except String (List BuiltMessage × BOptions × List Event × List StepLog)
  | [], opts => .ok ([], opts, [], [])
  | c :: rest, opts =>
    match group.buildChild c opts with
    | .error e => .error e
    | .ok (ms, opts1, evsC) =>
      match group.buildChildren rest opts1 with
      | .error e => .error e
      | .ok (msR, optsF, evsR, logR) =>
          .ok (ms ++ msR, optsF, evsC ++ evsR, ⟨opts, ms⟩ :: logR)

/-- Build of one group child (composition.py lines 223-227): a pipeline child
is `messages += child.build(last_options=options)` — a `None` result (empty
pipeline) raises TypeError, and the possibly mutated options value is
returned; a message child is `messages += [child.build(options)]`; a group
child cannot occur (group.__init__ rejects it) — Python would append the
nested group's message list as a single pseudo-message there. -/
def group.buildChild : Comp → BOptions →
    Except String (List BuiltMessage × BOptions × List Event)
  | .pipe pid pcs, opts =>
      match pipeline.buildAux pid pcs (some opts) with
      | .error e => .error e
      | .ok (none, _, _, _) =>
          .error "TypeError: messages += None on an empty pipeline child"
      | .ok (some ms, lo1, evs, _) =>
          .ok (ms, (match lo1 with | some o => o | none => opts), evs)
  | .msg i a, opts => .ok ([Message.build i a opts], opts, [])
  | .grp _ _ _, _ => .error "unreachable: group children are never groups"

end

/-- group.build (composition.py lines 214-228): with `options=None` no event
is emitted and the merge starts from the empty dict; otherwise the
`build_group_pipeline` event is emitted first (this is the path inlined in
`pipeline.buildChild`).  Returns the flat message list, the events, and one
`StepLog` per child. -/
def group.build (gid : String) (coe : Bool) (children : List Comp)
    (options? : Option BOptions) :
    Except String (List BuiltMessage × List Event × List StepLog) :=
  match options? with
  | none =>
      match group.buildChildren children
          (BOptions.mk none none (some (GroupInfo.mk gid children.length coe))) with
      | .error e => .error e
      | .ok (ms, _, evs, log) => .ok (ms, evs, log)
  | some o =>
      match group.message_ids children with
      | none => .error "AttributeError: a nested group has no message_id"
      | some ids =>
        match group.buildChildren children (groupMerge gid coe children.length o) with
        | .error e => .error e
        | .ok (ms, _, evs, log) =>
            .ok (ms, Event.build_group_pipeline gid ids :: evs, log)

/-- pipeline.build top entry: `build(last_options=None)` starts the reverse
traversal with `next_child = None`. -/
def pipeline.build (pid : String) (children : List Comp) (lo : Option BOptions) :
    Except String (Option (List BuiltMessage) × Option BOptions × List Event × List StepLog) :=
  pipeline.buildAux pid children lo

/-- pipeline.run (composition.py lines 134-150): build, then enqueue each
message if the result is a list, else enqueue the result value itself (for an
empty pipeline `build()` returns None and `enqueue(None)` is called).  The
returned list records each value passed to `broker.enqueue`. -/
def pipeline.run (pid : String) (children : List Comp) :
    Except String (List (Option BuiltMessage)) :=
  match pipeline.build pid children none with
  | .error e => .error e
  | .ok (some ms, _, _, _) => .ok (ms.map some)
  | .ok (none, _, _, _) => .ok [none]

/-- A node of a CollectionResults tree: a terminal Result handle (modelled
from the spec: a handle bound to one Unit id) or a nested CollectionResults
(its list of children). -/
inductive RChild where
  | res (message_id : String)
  | coll (children : List RChild)

mutual

/-- The leaf ids one child contributes to CollectionResults.message_ids
(collection_results.py lines 78-86). -/
def CollectionResults.childIds : RChild → List String
  | .res i => [i]
  | .coll cs => CollectionResults.message_ids cs

/-- CollectionResults.message_ids: flatten the tree into the ordered list of
leaf ids. -/
def CollectionResults.message_ids : List RChild → List String
  | [] => []
  | c :: rest => CollectionResults.childIds c ++ CollectionResults.message_ids rest

end

mutual

/-- Decoding of one element of CollectionResults.from_message_ids
(collection_results.py lines 50-62): a plain id becomes a Result, a list is
treated as a pipeline and decoded through its last element. -/
def CollectionResults.decodeElem : IdTree → Option RChild
  | .id s => some (.res s)
  | .l l => CollectionResults.decodeLast l

/-- `last = message_id[-1]` followed by the branch on it; `[-1]` on an empty
list raises IndexError (`none`). -/
def CollectionResults.decodeLast : List IdTree → Option RChild
  | [] => none
  | [x] => CollectionResults.decodeTrailing x
  | _ :: x :: xs => CollectionResults.decodeLast (x :: xs)

/-- The branch on `last`: a list (the pipeline ends in a group) is decoded
recursively as a nested CollectionResults, a plain id becomes a Result. -/
def CollectionResults.decodeTrailing : IdTree → Option RChild
  | .id s => some (.res s)
  | .l l2 => (CollectionResults.from_message_ids l2).map RChild.coll

/-- CollectionResults.from_message_ids (collection_results.py lines 48-63). -/
def CollectionResults.from_message_ids : List IdTree → Option (List RChild)
  | [] => some []
  | t :: rest =>
      match CollectionResults.decodeElem t, CollectionResults.from_message_ids rest with
      | some c, some r => some (c :: r)
      | _, _ => none

end

mutual

/-- Modelled from the spec: one element's contribution to `common.flatten`. -/
def flattenIdTree : IdTree → List String
  | .id s => [s]
  | .l l => flattenIds l

/-- Modelled from the spec: `common.flatten` — direct traversal of a nested
id structure into the full ordered sequence of leaf ids. -/
def flattenIds : List IdTree → List String
  | [] => []
  | t :: rest => flattenIdTree t ++ flattenIds rest

end

mutual

/-- Bool well-formedness of one id element: every nested list is non-empty
(so `[-1]` indexing cannot raise). -/
def wfIdTree : IdTree → Bool
  | .id _ => true
  | .l l => !l.isEmpty && wfIdsList l

/-- Bool well-formedness of an id structure. -/
def wfIdsList : List IdTree → Bool
  | [] => true
  | t :: rest => wfIdTree t && wfIdsList rest

end

mutual

/-- Spec-side expected view ids of one element: a plain id contributes
itself, a flat sequence its last id (the nested pipeline's trailing Unit), a
sequence ending in a sequence the member results of that trailing group. -/
def resultIdsElem : IdTree → List String
  | .id s => [s]
  | .l l => resultIdsLast l

/-- Last-element selection for `resultIdsElem`. -/
def resultIdsLast : List IdTree → List String
  | [] => []
  | [x] => resultIdsTrailing x
  | _ :: x :: xs => resultIdsLast (x :: xs)

/-- Branch on the trailing element for `resultIdsElem`. -/
def resultIdsTrailing : IdTree → List String
  | .id s => [s]
  | .l l2 => resultIdsList l2

/-- Spec-side expected ids of the decoded view, element by element. -/
def resultIdsList : List IdTree → List String
  | [] => []
  | t :: rest => resultIdsElem t ++ resultIdsList rest

end

/-- One call to the result backend's `get_results`, as recorded in a trace:
the ids fetched, the passthrough flags, the timeout passed, and the clock
value when the fetch was issued. -/
structure FetchCall where
  ids : List String
  block : Bool
  timeout : Option Nat
  raise_on_error : Bool
  forget : Bool
  t_issue : Nat
deriving DecidableEq

/-- Trace event of a `get` run: a backend fetch, or a recursive nested
`child.get` call recording the timeout passed to it, the clock at the start
of the child's loop iteration (when that timeout was computed), the clock
when the recursion was actually entered, and the nested call's own trace. -/
inductive CallEv where
  | fetch (r : FetchCall)
  | nest (timeout : Option Nat) (t_iter : Nat) (t_issue : Nat) (sub : List CallEv)

/-- An outcome yielded by `get`: a backend value for one id, or the
materialized list of a nested CollectionResults child's outcomes. -/
inductive Out (V : Type) where
  | val (v : V)
  | nested (l : List (Out V))

mutual

/-- The child loop of CollectionResults.get (collection_results.py lines
165-185) as its fully drained run.  `f` is the backend's per-id outcome,
`dur ids` the wall-clock milliseconds a fetch of `ids` consumes (the clock
advances only inside backend fetches).  `dl` is the deadline fixed for the
whole call; `timeout` is the Python local reassigned to
`max(0, deadline - now)` at the top of each iteration when a deadline is set
(Nat subtraction is the `max(0, ·)`); `pending` is the batch of consecutive
leaf ids, flushed before recursing into a nested child and after the loop.
Returns outcomes, the trace and the final clock. -/
def CollectionResults.getAux {V : Type} (f : String → V) (dur : List String → Nat)
    (blk roe fg : Bool) :
    Option Nat → List RChild → List String → Option Nat → Nat →
    List (Out V) × List CallEv × Nat
  | _, [], pending, timeout, t =>
      if pending.isEmpty then ([], [], t)
      else (pending.map (fun i => Out.val (f i)),
            [CallEv.fetch ⟨pending, blk, timeout, roe, fg, t⟩], t + dur pending)
  | dl, child :: rest, pending, timeout, t =>
      let timeout1 : Option Nat :=
        match dl with
        | some d => some (d - t)
        | none => timeout
      match child with
      | .res i =>
          CollectionResults.getAux f dur blk roe fg dl rest (pending ++ [i]) timeout1 t
      | .coll _ =>
          let flush : List (Out V) × List CallEv × Nat :=
            if pending.isEmpty then ([], [], t)
            else (pending.map (fun i => Out.val (f i)),
                  [CallEv.fetch ⟨pending, blk, timeout1, roe, fg, t⟩], t + dur pending)
          match CollectionResults.getEntry f dur blk roe fg child timeout1 flush.2.2 with
          | (outsN, evsN, t2) =>
            match CollectionResults.getAux f dur blk roe fg dl rest [] timeout1 t2 with
            | (outsR, evsR, t3) =>
              (flush.1 ++ Out.nested outsN :: outsR,
               flush.2.1 ++ CallEv.nest timeout1 t flush.2.2 evsN :: evsR, t3)

/-- Entry of a recursive `child.get(...)` call on a nested child
(collection_results.py line 178, with lines 161-163 inlined): compute the
nested call's own deadline — set only when the passed timeout is truthy —
then run its child loop with an empty pending batch.  Only ever invoked on a
`coll` child; the `res` branch is dead. -/
def CollectionResults.getEntry {V : Type} (f : String → V) (dur : List String → Nat)
    (blk roe fg : Bool) :
    RChild → Option Nat → Nat → List (Out V) × List CallEv × Nat
  | .coll cs, timeout, t0 =>
      CollectionResults.getAux f dur blk roe fg
        (match timeout with
         | some v => if v = 0 then none else some (t0 + v)
         | none => none)
        cs [] timeout t0
  | .res _, _, t0 => ([], [], t0)

end

/-- CollectionResults.get (collection_results.py lines 138-185), drained:
compute the deadline once when `timeout` is truthy (non-zero), then run the
child loop with an empty pending batch. -/
def CollectionResults.getRun {V : Type} (f : String → V) (dur : List String → Nat)
    (blk roe fg : Bool) (children : List RChild) (timeout : Option Nat) (t0 : Nat) :
    List (Out V) × List CallEv × Nat :=
  CollectionResults.getAux f dur blk roe fg
    (match timeout with
     | some v => if v = 0 then none else some (t0 + v)
     | none => none)
    children [] timeout t0

mutual

/-- Expected outcome of one child, following the spec's words: a leaf yields
the backend outcome for its id, a nested child its materialized outcome
list as a single element. -/
def specOut {V : Type} (f : String → V) : RChild → Out V
  | .res i => .val (f i)
  | .coll cs => .nested (specOuts f cs)

/-- Expected outcome list: one outcome per child, in child order. -/
def specOuts {V : Type} (f : String → V) : List RChild → List (Out V)
  | [] => []
  | c :: rest => specOut f c :: specOuts f rest

end

mutual

/-- Expected batches contributed by a nested child, following the spec's
words: its own batches, recursively, starting with an empty pending batch. -/
def specBatchesChild : RChild → List (List String)
  | .res _ => []
  | .coll cs => specBatches cs []

/-- Expected fetch batches, following the spec's words: consecutive leaves
are batched into one multi-id fetch, a nested child first flushes the pending
batch, then contributes its own batches recursively. -/
def specBatches : List RChild → List String → List (List String)
  | [], pending => if pending.isEmpty then [] else [pending]
  | c :: rest, pending =>
      match c with
      | .res i => specBatches rest (pending ++ [i])
      | .coll _ =>
          (if pending.isEmpty then [] else [pending]) ++
            specBatchesChild c ++ specBatches rest []

end

mutual

/-- The id lists fetched by one trace event, in chronological order. -/
def evIdsOne : CallEv → List (List String)
  | .fetch r => [r.ids]
  | .nest _ _ _ sub => evIds sub

/-- The id lists of all fetches in a trace, in chronological order. -/
def evIds : List CallEv → List (List String)
  | [] => []
  | e :: rest => evIdsOne e ++ evIds rest

end

/-- Lifecycle state names (state/backend StateNamesEnum). -/
inductive StateName where
  | Pending
  | Started
  | Success
  | Failure
  | Skipped
  | Canceled
deriving DecidableEq

/-- The slice of a message the state middleware reads: identity, actor, args,
kwargs (opaque types) and the `group_info` entry of its options dict. -/
structure SMessage (α β : Type) where
  message_id : String
  actor_name : String
  args : α
  kwargs : β
  group_info : Option GroupInfo

/-- The State record passed to `backend.set_state` (all fields of the State
constructor reachable from the middleware; an unsupplied field is `none`).
Timestamps are abstract clock values. -/
structure StateRec (α β : Type) where
  message_id : String
  state_name : Option StateName
  actor_name : String
  args : α
  kwargs : β
  priority : Option Nat
  group_id : Option String
  pipeline_id : Option String
  enqueued_datetime : Option Nat
  started_datetime : Option Nat
  end_datetime : Option Nat

/-- MessageState.save (state/middleware.py lines 20-36): one
`backend.set_state(State(...), state_ttl)` call, returned as the record
written together with the TTL used. -/
def MessageState.save {α β : Type} (ttl : Nat) (m : SMessage α β)
    (state_name : Option StateName) (priority : Option Nat)
    (group_id pipeline_id : Option String)
    (enqueued_datetime started_datetime end_datetime : Option Nat) :
    StateRec α β × Nat :=
  (⟨m.message_id, state_name, m.actor_name, m.args, m.kwargs, priority,
    group_id, pipeline_id, enqueued_datetime, started_datetime, end_datetime⟩,
   ttl)

/-- after_enqueue hook (middleware.py lines 41-50): Pending, enqueued
timestamp, the actor's priority from the broker, and the group id out of the
message's `group_info` options entry. -/
def MessageState.after_enqueue {α β : Type} (ttl : Nat)
    (actorPriority : String → Nat) (m : SMessage α β) (now : Nat) :
    StateRec α β × Nat :=
  MessageState.save ttl m (some .Pending) (some (actorPriority m.actor_name))
    (m.group_info.map GroupInfo.group_id) none (some now) none none

/-- before_process_message hook (middleware.py lines 65-66): Started with
started timestamp. -/
def MessageState.before_process_message {α β : Type} (ttl : Nat)
    (m : SMessage α β) (now : Nat) : StateRec α β × Nat :=
  MessageState.save ttl m (some .Started) none none none none (some now) none

/-- after_process_message hook (middleware.py lines 58-63): Success when no
exception, Failure otherwise, with end timestamp. -/
def MessageState.after_process_message {α β ε : Type} (ttl : Nat)
    (m : SMessage α β) (now : Nat) (exception : Option ε) :
    StateRec α β × Nat :=
  MessageState.save ttl m
    (some (match exception with | none => .Success | some _ => .Failure))
    none none none none none (some now)

/-- after_skip_message hook (middleware.py lines 52-53): Skipped, no extra
fields. -/
def MessageState.after_skip_message {α β : Type} (ttl : Nat)
    (m : SMessage α β) : StateRec α β × Nat :=
  MessageState.save ttl m (some .Skipped) none none none none none none

/-- after_message_canceled hook (middleware.py lines 55-56): Canceled, no
extra fields. -/
def MessageState.after_message_canceled {α β : Type} (ttl : Nat)
    (m : SMessage α β) : StateRec α β × Nat :=
  MessageState.save ttl m (some .Canceled) none none none none none none

/-- before_build_messages_pipeline hook (middleware.py lines 68-70): one
write per message of the new pipeline, stamping only the pipeline id. -/
def MessageState.before_build_messages_pipeline {α β : Type} (ttl : Nat)
    (pid : String) (messages : List (SMessage α β)) :
    List (StateRec α β × Nat) :=
  messages.map (fun m =>
    MessageState.save ttl m none none none (some pid) none none none)

/-! Theorems.  Each claim Ci of the specification gets one theorem (with a
witness when it has hypotheses, and a counterexample when the claim as
stated fails on the code). -/

/-- The invariant every constructed pipeline object satisfies: its children
contain no pipeline instance. -/
def Comp.flatWF : Comp → Bool
  | .pipe _ cs => cs.all (fun c => !c.isPipeB)
  | _ => true

/-- The in-order replacement pipeline.__init__ performs on one input child. -/
def expandChild : Comp → List Comp
  | .pipe _ cs => cs
  | .grp g c cs => [.grp g c cs]
  | .msg i a => [msgCopy (.msg i a)]

theorem nonPipe_msg_or_grp (c : Comp) (h : c.isPipeB = false) :
    (c.isMsgB || c.isGrpB) = true := by
  cases c <;> simp_all [Comp.isPipeB, Comp.isMsgB, Comp.isGrpB]

theorem flattenChildren_eq_flatMap (children : List Comp) :
    flattenChildren children = children.flatMap expandChild := by
  induction children with
  | nil => simp [flattenChildren]
  | cons c rest ih =>
      cases c <;> simp [flattenChildren, expandChild, ih]

/-- C10: for the pipeline constructed from an empty child sequence, build()
returns None (the reverse-traversal accumulator `next_child` is never
assigned), and run() passes that None value directly to `broker.enqueue`
since it is not a list. -/
theorem c10_empty_pipeline_build_none (pid : String) :
    pipeline.build pid [] none = .ok (none, none, [], []) ∧
    pipeline.run pid [] = .ok [none] :=
  ⟨rfl, rfl⟩

/-- C6: constructing a group from any child sequence containing a group
raises the construction error eagerly (ValueError "Groups of groups are not
supported"), never deferring to build. -/
theorem c6_group_of_group_rejected (gid : String) (coe : Bool)
    (children : List Comp) (h : children.any Comp.isGrpB = true) :
    group.init gid coe children = .error "Groups of groups are not supported" := by
  simp [group.init, h]

/-- Witness for C6 at the concrete input group([group([])]). -/
theorem c6_witness :
    ([Comp.grp "g" false []].any Comp.isGrpB) = true ∧
    group.init "G" true [Comp.grp "g" false []] =
      .error "Groups of groups are not supported" :=
  ⟨by decide, c6_group_of_group_rejected "G" true [Comp.grp "g" false []] (by decide)⟩

/-- C7: the pipeline constructed from any sequence of already-constructed
children (so any pipeline among them satisfies the no-pipeline-children
invariant) replaces each nested pipeline child in order by that child's own
children, and afterwards no child is a pipeline — every child is a Message
or a group. -/
theorem c7_pipeline_flattening (children : List Comp) (pid : String)
    (h : children.all Comp.flatWF = true) :
    (pipeline.init children pid).1 = .pipe pid (flattenChildren children) ∧
    flattenChildren children = children.flatMap expandChild ∧
    ((flattenChildren children).all (fun c => c.isMsgB || c.isGrpB)) = true := by
  refine ⟨rfl, flattenChildren_eq_flatMap children, ?_⟩
  induction children with
  | nil => simp [flattenChildren]
  | cons c rest ih =>
      simp only [List.all_cons, Bool.and_eq_true] at h
      cases c with
      | msg i a =>
          simp only [flattenChildren, List.all_cons, Bool.and_eq_true]
          exact ⟨by simp [msgCopy, Comp.isMsgB], ih h.2⟩
      | grp g cc cs =>
          simp only [flattenChildren, List.all_cons, Bool.and_eq_true]
          exact ⟨by simp [Comp.isGrpB], ih h.2⟩
      | pipe p cs =>
          simp only [flattenChildren, List.all_append, Bool.and_eq_true]
          refine ⟨?_, ih h.2⟩
          have h1 : cs.all (fun c => !c.isPipeB) = true := h.1
          simp only [List.all_eq_true] at h1 ⊢
          intro x hx
          exact nonPipe_msg_or_grp x (by simpa using h1 x hx)

/-- Witness for C7 at pipeline([pipeline([A]), B]). -/
theorem c7_witness :
    ([Comp.pipe "q" [Comp.msg "a" "A"], Comp.msg "b" "B"].all Comp.flatWF) = true ∧
    ((pipeline.init [Comp.pipe "q" [Comp.msg "a" "A"], Comp.msg "b" "B"] "p").1 =
       .pipe "p" (flattenChildren [Comp.pipe "q" [Comp.msg "a" "A"], Comp.msg "b" "B"]) ∧
     flattenChildren [Comp.pipe "q" [Comp.msg "a" "A"], Comp.msg "b" "B"] =
       [Comp.pipe "q" [Comp.msg "a" "A"], Comp.msg "b" "B"].flatMap expandChild ∧
     ((flattenChildren [Comp.pipe "q" [Comp.msg "a" "A"], Comp.msg "b" "B"]).all
        (fun c => c.isMsgB || c.isGrpB)) = true) :=
  ⟨by decide,
   c7_pipeline_flattening [Comp.pipe "q" [Comp.msg "a" "A"], Comp.msg "b" "B"] "p" (by decide)⟩

/-- C8: each of the five lifecycle hooks writes exactly one state record
keyed by the message's id with the configured TTL, always including the
message's actor name, args and kwargs; after-enqueue writes Pending with the
enqueued timestamp, the actor's priority and the group id from the message's
group_info options entry; before-process writes Started with the started
timestamp; after-process writes Success without an exception and Failure
with one, both with the end timestamp; after-skip writes Skipped and
after-cancel writes Canceled with no extra fields. -/
theorem c8_lifecycle_hooks {α β ε : Type} (ttl : Nat) (ap : String → Nat)
    (m : SMessage α β) (now : Nat) :
    MessageState.after_enqueue ttl ap m now =
      (⟨m.message_id, some .Pending, m.actor_name, m.args, m.kwargs,
        some (ap m.actor_name), m.group_info.map GroupInfo.group_id, none,
        some now, none, none⟩, ttl) ∧
    MessageState.before_process_message ttl m now =
      (⟨m.message_id, some .Started, m.actor_name, m.args, m.kwargs,
        none, none, none, none, some now, none⟩, ttl) ∧
    MessageState.after_process_message ttl m now (none : Option ε) =
      (⟨m.message_id, some .Success, m.actor_name, m.args, m.kwargs,
        none, none, none, none, none, some now⟩, ttl) ∧
    (∀ exc : ε, MessageState.after_process_message ttl m now (some exc) =
      (⟨m.message_id, some .Failure, m.actor_name, m.args, m.kwargs,
        none, none, none, none, none, some now⟩, ttl)) ∧
    MessageState.after_skip_message ttl m =
      (⟨m.message_id, some .Skipped, m.actor_name, m.args, m.kwargs,
        none, none, none, none, none, none⟩, ttl) ∧
    MessageState.after_message_canceled ttl m =
      (⟨m.message_id, some .Canceled, m.actor_name, m.args, m.kwargs,
        none, none, none, none, none, none⟩, ttl) :=
  ⟨rfl, rfl, rfl, fun _ => rfl, rfl, rfl⟩

/-- Helper: the pipeline_id set by pipeline.build into every child's options. -/
theorem pipeOptions_pid (pid : String) (n : Option (List BuiltMessage))
    (lo : Option BOptions) : (pipeOptions pid n lo).1.pipeline_id = some pid := by
  unfold pipeOptions
  rcases n with _ | ⟨_ | ⟨m, ms⟩⟩ <;> rcases lo with _ | o <;> simp
  all_goals split <;> simp


/-- Helper: one pipeline.build iteration returns the caller's last_options
either unchanged or with its pipeline_id stamped. -/
theorem pipeOptions_lo (pid : String) (n : Option (List BuiltMessage))
    (lo1 : Option BOptions) :
    (pipeOptions pid n lo1).2 = lo1 ∨
      ∃ o, lo1 = some o ∧
        (pipeOptions pid n lo1).2 =
          some (BOptions.mk o.pipe_target (some pid) o.group_info) := by
  cases n with
  | none =>
    cases lo1 with
    | none => exact Or.inl rfl
    | some o =>
      cases ht : o.truthy with
      | true => exact Or.inr ⟨o, rfl, by simp [pipeOptions, ht]⟩
      | false => exact Or.inl (by simp [pipeOptions, ht])
  | some l =>
    cases l with
    | cons m ms => exact Or.inl rfl
    | nil =>
      cases lo1 with
      | none => exact Or.inl rfl
      | some o =>
        cases ht : o.truthy with
        | true => exact Or.inr ⟨o, rfl, by simp [pipeOptions, ht]⟩
        | false => exact Or.inl (by simp [pipeOptions, ht])

/-- Helper: pipeline.build only ever mutates the caller's last_options dict by
stamping its pipeline_id; pipe_target and group_info are untouched. -/
theorem buildAux_lo (pid : String) (cs : List Comp) :
    ∀ (lo : Option BOptions) (r : Option (List BuiltMessage))
      (lo2 : Option BOptions) (evs : List Event) (log : List StepLog),
    pipeline.buildAux pid cs lo = .ok (r, lo2, evs, log) →
    lo2 = lo ∨ ∃ o, lo = some o ∧
      lo2 = some (BOptions.mk o.pipe_target (some pid) o.group_info) := by
  induction cs with
  | nil =>
      intro lo r lo2 evs log h
      simp only [pipeline.buildAux, Except.ok.injEq, Prod.mk.injEq] at h
      exact Or.inl h.2.1.symm
  | cons c rest ih =>
      intro lo r lo2 evs log h
      simp only [pipeline.buildAux] at h
      cases hr : pipeline.buildAux pid rest lo with
      | error e => simp only [hr] at h; exact Except.noConfusion h
      | ok q =>
        obtain ⟨next, lo1, evsR, logR⟩ := q
        simp only [hr] at h
        cases hc : pipeline.buildChild c (pipeOptions pid next lo1).1 with
        | error e => simp only [hc] at h; exact Except.noConfusion h
        | ok p =>
          obtain ⟨ms, evsC⟩ := p
          simp only [hc, Except.ok.injEq, Prod.mk.injEq] at h
          have hlo2 : (pipeOptions pid next lo1).2 = lo2 := h.2.1
          rcases pipeOptions_lo pid next lo1 with hp | ⟨o1, ho1, hp⟩
          · rw [← hlo2, hp]
            exact ih lo next lo1 evsR logR hr
          · subst ho1
            rcases ih lo next (some o1) evsR logR hr with h1 | ⟨o, h2, h3⟩
            · exact Or.inr ⟨o1, h1.symm, by rw [← hlo2, hp]⟩
            · refine Or.inr ⟨o, h2, ?_⟩
              rw [← hlo2, hp]
              injection h3 with h3
              subst h3
              rfl

/-- Helper: building one group child preserves the group_info entry of the
threaded options dict (a pipeline child only stamps its pipeline_id). -/
theorem buildChild_gi (c : Comp) (opts : BOptions) (msC : List BuiltMessage)
    (opts1 : BOptions) (evsC : List Event)
    (h : group.buildChild c opts = .ok (msC, opts1, evsC)) :
    opts1.group_info = opts.group_info := by
  cases c with
  | msg i a =>
      simp only [group.buildChild, Except.ok.injEq, Prod.mk.injEq] at h
      rw [← h.2.1]
  | grp g cc cs =>
      simp only [group.buildChild] at h; exact Except.noConfusion h
  | pipe pid pcs =>
      simp only [group.buildChild] at h
      cases hb : pipeline.buildAux pid pcs (some opts) with
      | error e => simp only [hb] at h; exact Except.noConfusion h
      | ok q =>
        obtain ⟨res, lo1, evsP, logP⟩ := q
        simp only [hb] at h
        cases res with
        | none => exact Except.noConfusion h
        | some msP =>
          simp only [Except.ok.injEq, Prod.mk.injEq] at h
          rw [← h.2.1]
          rcases buildAux_lo pid pcs (some opts) (some msP) lo1 evsP logP hb with
            hl | ⟨o, ho, hl⟩
          · subst hl; rfl
          · injection ho with ho
            subst ho; subst hl; rfl

/-- Helper: the loop of group.build keeps group_info constant in the threaded
options, logs one entry per child carrying the options passed to it, and
returns the concatenation of the per-child built units. -/
theorem buildChildren_inv (children : List Comp) :
    ∀ (opts : BOptions) (ms : List BuiltMessage) (optsF : BOptions)
      (evs : List Event) (log : List StepLog),
    group.buildChildren children opts = .ok (ms, optsF, evs, log) →
    log.length = children.length ∧
    (∀ e ∈ log, e.opts.group_info = opts.group_info) ∧
    optsF.group_info = opts.group_info ∧
    ms = (log.map StepLog.built).flatten := by
  induction children with
  | nil =>
      intro opts ms optsF evs log h
      simp only [group.buildChildren, Except.ok.injEq, Prod.mk.injEq] at h
      obtain ⟨h1, h2, h3, h4⟩ := h
      subst h1; subst h2; subst h4
      exact ⟨rfl, by simp, rfl, rfl⟩
  | cons c rest ih =>
      intro opts ms optsF evs log h
      simp only [group.buildChildren] at h
      cases hc : group.buildChild c opts with
      | error e => simp only [hc] at h; exact Except.noConfusion h
      | ok p =>
        obtain ⟨msC, opts1, evsC⟩ := p
        simp only [hc] at h
        cases hr : group.buildChildren rest opts1 with
        | error e => simp only [hr] at h; exact Except.noConfusion h
        | ok q =>
          obtain ⟨msR, optsF2, evsR, logR⟩ := q
          simp only [hr, Except.ok.injEq, Prod.mk.injEq] at h
          obtain ⟨hms, hopts, hevs, hlog⟩ := h
          subst hms; subst hopts; subst hlog
          have hgi := buildChild_gi c opts msC opts1 evsC hc
          obtain ⟨il, ie, io, im⟩ := ih opts1 msR optsF2 evsR logR hr
          refine ⟨by simp [il], ?_, by rw [io, hgi], by simp [im]⟩
          intro e he
          rcases List.mem_cons.mp he with he1 | he2
          · subst he1; rfl
          · rw [ie e he2, hgi]

/-- Helper: on all-Message children the group.build loop succeeds, leaves the
options dict untouched, emits nothing, and produces one unit per child, each
carrying the group_info of the options dict. -/
theorem buildChildren_msgs (children : List Comp) :
    ∀ (opts : BOptions), children.all Comp.isMsgB = true →
    ∃ ms log, group.buildChildren children opts = .ok (ms, opts, [], log) ∧
      ms.length = children.length ∧
      (∀ m ∈ ms, m.gInfo = opts.group_info) ∧
      log.length = children.length ∧
      (∀ e ∈ log, e.opts = opts) := by
  induction children with
  | nil =>
      intro opts _
      exact ⟨[], [], rfl, rfl, by simp, rfl, by simp⟩
  | cons c rest ih =>
      intro opts h
      simp only [List.all_cons, Bool.and_eq_true] at h
      cases c with
      | msg i a =>
          obtain ⟨ms, log, heq, hl, hgi, hll, hle⟩ := ih opts h.2
          refine ⟨Message.build i a opts :: ms,
                  ⟨opts, [Message.build i a opts]⟩ :: log, ?_, ?_, ?_, ?_, ?_⟩
          · simp [group.buildChildren, group.buildChild, heq]
          · simp [hl]
          · intro m hm
            rcases List.mem_cons.mp hm with hm1 | hm2
            · subst hm1; rfl
            · exact hgi m hm2
          · simp [hll]
          · intro e he
            rcases List.mem_cons.mp he with he1 | he2
            · subst he1; rfl
            · exact hle e he2
      | grp g cc cs => simp [Comp.isGrpB, Comp.isMsgB] at h
      | pipe p cs => simp [Comp.isMsgB] at h

/-- Helper: on all-Message children group.message_ids succeeds. -/
theorem group_message_ids_msgs (children : List Comp) :
    children.all Comp.isMsgB = true →
    ∃ ids, group.message_ids children = some ids := by
  induction children with
  | nil => intro _; exact ⟨[], rfl⟩
  | cons c rest ih =>
      intro h
      simp only [List.all_cons, Bool.and_eq_true] at h
      cases c with
      | msg i a =>
          obtain ⟨ids, hids⟩ := ih h.2
          exact ⟨IdTree.id i :: ids, by simp [group.message_ids, group.childIds, hids]⟩
      | grp g cc cs => simp [Comp.isMsgB] at h
      | pipe p cs => simp [Comp.isMsgB] at h

/-- C5 counterexample: Group(["g"], children = [pipeline([A, B])]) built with
no options returns the pipeline's entry Unit A, whose options contain no
group_info at all — refuting the claim that every built Unit carries the
group's group_info (only the trailing step B received the group options). -/
theorem c5_counterexample :
    group.build "g" false [Comp.pipe "p" [Comp.msg "a" "A", Comp.msg "b" "B"]] none =
      .ok ([BuiltMessage.mk "a" "A"
              (some [BuiltMessage.mk "b" "B" none (some "p") (some ⟨"g", 1, false⟩)])
              (some "p") none],
           [],
           [⟨⟨none, none, some ⟨"g", 1, false⟩⟩,
             [BuiltMessage.mk "a" "A"
                (some [BuiltMessage.mk "b" "B" none (some "p") (some ⟨"g", 1, false⟩)])
                (some "p") none]⟩]) ∧
    (BuiltMessage.mk "a" "A"
        (some [BuiltMessage.mk "b" "B" none (some "p") (some ⟨"g", 1, false⟩)])
        (some "p") none).gInfo = none ∧
    (none : Option GroupInfo) ≠ some ⟨"g", 1, false⟩ :=
  ⟨rfl, rfl, fun hcon => Option.noConfusion hcon⟩

/-- C5 (amended): group.build with no inherited options returns the
concatenation, in child order, of every child's built entry set (exactly M
Units when all M children are Messages); the group_info merged into the
options passed to every child's build is the group's own (group_id,
children_count = M, cancel_on_error); when all children are Messages every
returned Unit carries that group_info — but a pipeline child's returned
entry Units need not (see the counterexample). -/
theorem c5_group_build (gid : String) (coe : Bool) (children : List Comp)
    (ms : List BuiltMessage) (evs : List Event) (log : List StepLog)
    (h : group.build gid coe children none = .ok (ms, evs, log)) :
    log.length = children.length ∧
    (∀ e ∈ log, e.opts.group_info = some (GroupInfo.mk gid children.length coe)) ∧
    ms = (log.map StepLog.built).flatten ∧
    (children.all Comp.isMsgB = true →
      ms.length = children.length ∧
      ∀ m ∈ ms, m.gInfo = some (GroupInfo.mk gid children.length coe)) := by
  simp only [group.build] at h
  cases hb : group.buildChildren children
      (BOptions.mk none none (some (GroupInfo.mk gid children.length coe))) with
  | error e => simp only [hb] at h; exact Except.noConfusion h
  | ok q =>
    obtain ⟨ms2, optsF, evs2, log2⟩ := q
    simp only [hb, Except.ok.injEq, Prod.mk.injEq] at h
    obtain ⟨hms, hevs, hlog⟩ := h
    subst hms; subst hevs; subst hlog
    obtain ⟨il, ie, _, im⟩ := buildChildren_inv children _ _ _ _ _ hb
    refine ⟨il, fun e he => ie e he, im, ?_⟩
    intro hall
    obtain ⟨ms3, log3, heq3, hl3, hgi3, _, _⟩ := buildChildren_msgs children _ hall
    rw [hb] at heq3
    obtain ⟨hms3, _, _, hlog3⟩ := by
      have := heq3
      simp only [Except.ok.injEq, Prod.mk.injEq] at this
      exact this
    subst hms3
    exact ⟨hl3, fun m hm => hgi3 m hm⟩

/-- Witness for C5 at Group("g", [A, B], cancel_on_error=true). -/
theorem c5_witness :
    group.build "g" true [Comp.msg "a" "A", Comp.msg "b" "B"] none =
      .ok ([BuiltMessage.mk "a" "A" none none (some ⟨"g", 2, true⟩),
            BuiltMessage.mk "b" "B" none none (some ⟨"g", 2, true⟩)],
           [],
           [⟨⟨none, none, some ⟨"g", 2, true⟩⟩,
             [BuiltMessage.mk "a" "A" none none (some ⟨"g", 2, true⟩)]⟩,
            ⟨⟨none, none, some ⟨"g", 2, true⟩⟩,
             [BuiltMessage.mk "b" "B" none none (some ⟨"g", 2, true⟩)]⟩]) ∧
    ([⟨⟨none, none, some (⟨"g", 2, true⟩ : GroupInfo)⟩,
       [BuiltMessage.mk "a" "A" none none (some ⟨"g", 2, true⟩)]⟩,
      ⟨⟨none, none, some (⟨"g", 2, true⟩ : GroupInfo)⟩,
       [BuiltMessage.mk "b" "B" none none (some ⟨"g", 2, true⟩)]⟩] : List StepLog).length =
      ([Comp.msg "a" "A", Comp.msg "b" "B"] : List Comp).length ∧
    (∀ m ∈ [BuiltMessage.mk "a" "A" none none (some ⟨"g", 2, true⟩),
            BuiltMessage.mk "b" "B" none none (some ⟨"g", 2, true⟩)],
       m.gInfo = some (GroupInfo.mk "g" 2 true)) := by
  have h0 : group.build "g" true [Comp.msg "a" "A", Comp.msg "b" "B"] none =
      .ok ([BuiltMessage.mk "a" "A" none none (some ⟨"g", 2, true⟩),
            BuiltMessage.mk "b" "B" none none (some ⟨"g", 2, true⟩)],
           [],
           [⟨⟨none, none, some ⟨"g", 2, true⟩⟩,
             [BuiltMessage.mk "a" "A" none none (some ⟨"g", 2, true⟩)]⟩,
            ⟨⟨none, none, some ⟨"g", 2, true⟩⟩,
             [BuiltMessage.mk "b" "B" none none (some ⟨"g", 2, true⟩)]⟩]) := rfl
  have hc := c5_group_build "g" true [Comp.msg "a" "A", Comp.msg "b" "B"] _ _ _ h0
  exact ⟨h0, rfl, (hc.2.2.2 (by decide)).2⟩

/-- C9 counterexample: constructing a group emits no notification at all —
group.__init__ contains no emit_before call, so the event list of the
construction of group(["A"]) is empty, refuting the claim that group
construction emits a before-build notification.  (The group's
build_group_pipeline event is emitted only inside build(), and only when
build receives explicit options from an enclosing pipeline.) -/
theorem c9_counterexample :
    group.init "g" false [Comp.msg "a" "A"] =
      .ok (Comp.grp "g" false [Comp.msg "a" "A"], []) ∧
    (∀ r : Comp × List Event,
      group.init "g" false [Comp.msg "a" "A"] = .ok r → r.2 = []) :=
  ⟨rfl, fun r hr => by
    have : (Comp.grp "g" false [Comp.msg "a" "A"], ([] : List Event)) = r := by
      have h0 : group.init "g" false [Comp.msg "a" "A"] =
          .ok (Comp.grp "g" false [Comp.msg "a" "A"], []) := rfl
      rw [h0] at hr
      injection hr
    rw [← this]⟩

/-- C9 (amended): constructing a pipeline emits exactly one
build_messages_pipeline notification carrying the pipeline id and its
messages; constructing a group emits nothing; a group emits its
build_group_pipeline notification (group id and materialized message ids)
only when built with explicit inherited options — the path taken when an
enclosing pipeline builds it — while a top-level build (options None, as in
group.run()) emits nothing for an all-Message group. -/
theorem c9_build_events (children : List Comp) (pid gid : String) (coe : Bool)
    (o : BOptions) :
    (pipeline.init children pid).2 =
      [Event.build_messages_pipeline pid (compMessages (flattenChildren children))] ∧
    (children.any Comp.isGrpB = false →
      group.init gid coe children = .ok (.grp gid coe children, [])) ∧
    (children.all Comp.isMsgB = true →
      (∃ r, group.build gid coe children none = .ok r ∧ r.2.1 = []) ∧
      (∃ ids r2, group.message_ids children = some ids ∧
        group.build gid coe children (some o) = .ok r2 ∧
        r2.2.1 = [Event.build_group_pipeline gid ids])) := by
  refine ⟨rfl, ?_, ?_⟩
  · intro h
    simp [group.init, h]
  · intro hall
    constructor
    · obtain ⟨ms, log, heq, _, _, _, _⟩ :=
        buildChildren_msgs children
          (BOptions.mk none none (some (GroupInfo.mk gid children.length coe))) hall
      exact ⟨(ms, [], log), by simp [group.build, heq], rfl⟩
    · obtain ⟨ids, hids⟩ := group_message_ids_msgs children hall
      obtain ⟨ms, log, heq, _, _, _, _⟩ :=
        buildChildren_msgs children (groupMerge gid coe children.length o) hall
      exact ⟨ids, (ms, [Event.build_group_pipeline gid ids], log),
             hids, by simp [group.build, hids, heq], rfl⟩

/-- Witness for C9 (amended) at pipeline([A]) / group("g", [A]). -/
theorem c9_witness :
    (([Comp.msg "a" "A"].any Comp.isGrpB) = false) ∧
    (([Comp.msg "a" "A"].all Comp.isMsgB) = true) ∧
    (pipeline.init [Comp.msg "a" "A"] "p").2 =
      [Event.build_messages_pipeline "p"
        (compMessages (flattenChildren [Comp.msg "a" "A"]))] ∧
    group.init "g" false [Comp.msg "a" "A"] =
      .ok (.grp "g" false [Comp.msg "a" "A"], []) ∧
    (∃ r, group.build "g" false [Comp.msg "a" "A"] none = .ok r ∧ r.2.1 = []) ∧
    (∃ ids r2, group.message_ids [Comp.msg "a" "A"] = some ids ∧
      group.build "g" false [Comp.msg "a" "A"] (some (BOptions.mk none none none)) = .ok r2 ∧
      r2.2.1 = [Event.build_group_pipeline "g" ids]) := by
  have hc := c9_build_events [Comp.msg "a" "A"] "p" "g" false (BOptions.mk none none none)
  exact ⟨by decide, by decide, hc.1, hc.2.1 (by decide),
         (hc.2.2 (by decide)).1, (hc.2.2 (by decide)).2⟩

/-- The pipe_target chaining property over the per-child log in child order:
each child's options are exactly the fresh dict
`{"pipe_target": serialized successor units, "pipeline_id": pid}`. -/
def Linked (pid : String) : List StepLog → Prop
  | [] => True
  | [_] => True
  | e1 :: e2 :: rest =>
      e1.opts = BOptions.mk (some (e2.built.map asdict)) (some pid) none ∧
      Linked pid (e2 :: rest)

/-- The options the last child of a pipeline receives:
`last_options or {}` with the pipeline_id stamped in. -/
def lastOptsExpected (lo : Option BOptions) (pid : String) : BOptions :=
  match lo with
  | some o =>
      if o.truthy then BOptions.mk o.pipe_target (some pid) o.group_info
      else BOptions.mk none (some pid) none
  | none => BOptions.mk none (some pid) none

/-- Helper: with no successor units the iteration options are the
last-options fallback. -/
theorem pipeOptions_none_fst (pid : String) (lo : Option BOptions) :
    (pipeOptions pid none lo).1 = lastOptsExpected lo pid := by
  cases lo with
  | none => rfl
  | some o =>
      cases ht : o.truthy with
      | true => simp [pipeOptions, lastOptsExpected, ht]
      | false => simp [pipeOptions, lastOptsExpected, ht]

/-- C1 (amended): pipeline.build walks the children in reverse, logs exactly
one build per child, stamps pipeline_id into every child's options, gives the
last child `last_options or {}` plus pipeline_id, returns the built form of
the first child, and — provided every child's built form is non-empty (an
empty group child builds to the falsy `[]`, see the counterexample) — passes
each earlier child exactly
`{"pipe_target": [serialized built units of its successor], "pipeline_id"}`. -/
theorem c1_pipeline_build (pid : String) (children : List Comp) :
    ∀ (lo : Option BOptions) (res : Option (List BuiltMessage))
      (lo2 : Option BOptions) (evs : List Event) (log : List StepLog),
    pipeline.buildAux pid children lo = .ok (res, lo2, evs, log) →
    (log.all fun e => !e.built.isEmpty) = true →
    log.length = children.length ∧
    (∀ e ∈ log, e.opts.pipeline_id = some pid) ∧
    (∀ e, log.head? = some e → e.opts = lastOptsExpected lo pid) ∧
    res = log.getLast?.map StepLog.built ∧
    Linked pid log.reverse := by
  induction children with
  | nil =>
      intro lo res lo2 evs log h _
      simp only [pipeline.buildAux, Except.ok.injEq, Prod.mk.injEq] at h
      obtain ⟨h1, _, _, h4⟩ := h
      subst h1; subst h4
      exact ⟨rfl, by simp, by simp, rfl, trivial⟩
  | cons c rest ih =>
      intro lo res lo2 evs log h hne
      simp only [pipeline.buildAux] at h
      cases hr : pipeline.buildAux pid rest lo with
      | error e => simp only [hr] at h; exact Except.noConfusion h
      | ok q =>
        obtain ⟨next, lo1, evsR, logR⟩ := q
        simp only [hr] at h
        cases hc : pipeline.buildChild c (pipeOptions pid next lo1).1 with
        | error e => simp only [hc] at h; exact Except.noConfusion h
        | ok p =>
          obtain ⟨ms, evsC⟩ := p
          simp only [hc, Except.ok.injEq, Prod.mk.injEq] at h
          obtain ⟨hres, _, _, hlog⟩ := h
          subst hres; subst hlog
          simp only [List.all_append, List.all_cons, Bool.and_eq_true] at hne
          obtain ⟨hneR, hneE, _⟩ := hne
          obtain ⟨lenR, pidR, headR, resR, linkR⟩ :=
            ih lo next lo1 evsR logR hr hneR
          have hlen : (logR ++ [(⟨(pipeOptions pid next lo1).1, ms⟩ : StepLog)]).length =
              (c :: rest).length := by simp [lenR]
          have hpid : ∀ e ∈ logR ++ [(⟨(pipeOptions pid next lo1).1, ms⟩ : StepLog)],
              e.opts.pipeline_id = some pid := by
            intro e he
            rcases List.mem_append.mp he with he1 | he2
            · exact pidR e he1
            · rw [List.mem_singleton.mp he2]
              exact pipeOptions_pid pid next lo1
          have hgetLast : (logR ++ [(⟨(pipeOptions pid next lo1).1, ms⟩ : StepLog)]).getLast?
              = some ⟨(pipeOptions pid next lo1).1, ms⟩ := by
            simp
          cases hlogR : logR with
          | nil =>
              subst hlogR
              have hrestnil : rest = [] := by
                have := lenR
                simpa using List.length_eq_zero.mp this.symm
              subst hrestnil
              simp only [pipeline.buildAux, Except.ok.injEq, Prod.mk.injEq] at hr
              obtain ⟨hn, hl1, _, _⟩ := hr
              subst hn; subst hl1
              refine ⟨hlen, hpid, ?_, by simp, by simp [Linked]⟩
              intro e he
              simp only [List.nil_append, List.head?_cons, Option.some.injEq] at he
              subst he
              exact pipeOptions_none_fst pid lo
          | cons f t =>
              have hlogRne : logR ≠ [] := by rw [hlogR]; simp
              rw [← hlogR]
              obtain ⟨gl, hgl⟩ :
                  ∃ gl, logR.getLast? = some gl :=
                ⟨logR.getLast hlogRne, List.getLast?_eq_getLast_of_ne_nil hlogRne⟩
              have hglmem : gl ∈ logR := List.mem_of_mem_getLast? (by rw [hgl]; rfl)
              have hglne : gl.built.isEmpty = false := by
                have := hneR
                rw [List.all_eq_true] at this
                have h2 := this gl hglmem
                simpa using h2
              have hnext : next = some gl.built := by rw [resR, hgl]; rfl
              cases hgb : gl.built with
              | nil => rw [hgb] at hglne; simp [List.isEmpty] at hglne
              | cons m ms' =>
                have hopts : (pipeOptions pid next lo1).1 =
                    BOptions.mk (some (gl.built.map asdict)) (some pid) none := by
                  rw [hnext, hgb]
                  rfl
                refine ⟨hlen, hpid, ?_, by rw [hgetLast]; rfl, ?_⟩
                · intro e he
                  rw [List.head?_append_of_ne_nil _ hlogRne] at he
                  exact headR e he
                · rw [List.reverse_append, List.reverse_singleton, List.singleton_append]
                  have hrevR : logR.reverse.head? = some gl := by
                    rw [List.head?_reverse, hgl]
                  cases hrev : logR.reverse with
                  | nil => rw [hrev] at hrevR; cases hrevR
                  | cons g gs =>
                    rw [hrev] at hrevR
                    have hggl : g = gl := by
                      simpa using hrevR
                    subst hggl
                    refine ⟨by rw [hopts], ?_⟩
                    rw [← hrev]
                    exact linkR

/-- C1 counterexample: in pipeline([A, group("g", [])]) the second child is an
empty group, which builds to the falsy empty list, so `if next_child:` takes
the else branch and child A is built with options `{"pipeline_id": "p"}` —
no pipe_target key at all, although the claim demands
`pipe_target = [serialized built units of c2] = []` for every i < N. -/
theorem c1_counterexample :
    pipeline.buildAux "p" [Comp.msg "a" "A", Comp.grp "g" false []] none =
      .ok (some [BuiltMessage.mk "a" "A" none (some "p") none], none,
           [Event.build_group_pipeline "g" []],
           [⟨⟨none, some "p", none⟩, ([] : List BuiltMessage)⟩,
            ⟨⟨none, some "p", none⟩,
             [BuiltMessage.mk "a" "A" none (some "p") none]⟩]) ∧
    (⟨none, some "p", none⟩ : BOptions).pipe_target = none ∧
    (none : Option (List BuiltMessage)) ≠ some [] :=
  ⟨rfl, rfl, fun hcon => Option.noConfusion hcon⟩

/-- Concrete built units and per-child log of pipeline([A, B]).build(),
used by the C1 witness. -/
def msgBw : BuiltMessage := .mk "b" "B" none (some "p") none

def msgAw : BuiltMessage := .mk "a" "A" (some [msgBw]) (some "p") none

def logW : List StepLog :=
  [⟨⟨none, some "p", none⟩, [msgBw]⟩,
   ⟨⟨some [msgBw], some "p", none⟩, [msgAw]⟩]

/-- Witness for C1 (amended) at pipeline([A, B]).build(). -/
theorem c1_witness :
    pipeline.buildAux "p" [Comp.msg "a" "A", Comp.msg "b" "B"] none =
      .ok (some [msgAw], none, [], logW) ∧
    (logW.all fun e => !e.built.isEmpty) = true ∧
    (logW.length = ([Comp.msg "a" "A", Comp.msg "b" "B"] : List Comp).length ∧
     (∀ e ∈ logW, e.opts.pipeline_id = some "p") ∧
     (∀ e, logW.head? = some e → e.opts = lastOptsExpected none "p") ∧
     some [msgAw] = logW.getLast?.map StepLog.built ∧
     Linked "p" logW.reverse) := by
  have h0 : pipeline.buildAux "p" [Comp.msg "a" "A", Comp.msg "b" "B"] none =
      .ok (some [msgAw], none, [], logW) := rfl
  have hne : (logW.all fun e => !e.built.isEmpty) = true := rfl
  exact ⟨h0, hne,
    c1_pipeline_build "p" [Comp.msg "a" "A", Comp.msg "b" "B"] none
      (some [msgAw]) none [] logW h0 hne⟩

/-- Helper: on well-formed id structures (no empty nested list) the whole
decode cluster succeeds, and the view's flattened ids are the per-element
trailing-result ids. -/
theorem decode_wf_all :
    (∀ t, wfIdTree t = true →
      ∃ c, CollectionResults.decodeElem t = some c ∧
        CollectionResults.childIds c = resultIdsElem t) ∧
    (∀ l, l.isEmpty = false → wfIdsList l = true →
      ∃ c, CollectionResults.decodeLast l = some c ∧
        CollectionResults.childIds c = resultIdsLast l) ∧
    (∀ x, wfIdTree x = true →
      ∃ c, CollectionResults.decodeTrailing x = some c ∧
        CollectionResults.childIds c = resultIdsTrailing x) ∧
    (∀ ids, wfIdsList ids = true →
      ∃ view, CollectionResults.from_message_ids ids = some view ∧
        CollectionResults.message_ids view = resultIdsList ids) := by
  refine CollectionResults.decodeElem.mutual_induct
    (fun t => wfIdTree t = true →
      ∃ c, CollectionResults.decodeElem t = some c ∧
        CollectionResults.childIds c = resultIdsElem t)
    (fun l => l.isEmpty = false → wfIdsList l = true →
      ∃ c, CollectionResults.decodeLast l = some c ∧
        CollectionResults.childIds c = resultIdsLast l)
    (fun x => wfIdTree x = true →
      ∃ c, CollectionResults.decodeTrailing x = some c ∧
        CollectionResults.childIds c = resultIdsTrailing x)
    (fun ids => wfIdsList ids = true →
      ∃ view, CollectionResults.from_message_ids ids = some view ∧
        CollectionResults.message_ids view = resultIdsList ids)
    ?_ ?_ ?_ ?_ ?_ ?_ ?_ ?_ ?_ ?_
  · intro s _
    exact ⟨.res s, rfl, rfl⟩
  · intro l ih h
    simp only [wfIdTree, Bool.and_eq_true, Bool.not_eq_true'] at h
    obtain ⟨c, hc, hci⟩ := ih h.1 h.2
    exact ⟨c, by simpa [CollectionResults.decodeElem] using hc, by rw [hci]; rfl⟩
  · intro s _
    exact ⟨.res s, rfl, rfl⟩
  · intro l ih h
    simp only [wfIdTree, Bool.and_eq_true, Bool.not_eq_true'] at h
    obtain ⟨view, hv, hvi⟩ := ih h.2
    refine ⟨.coll view, by simp [CollectionResults.decodeTrailing, hv], ?_⟩
    simpa [CollectionResults.childIds, resultIdsTrailing] using hvi
  · intro h1 _
    simp at h1
  · intro x ih _ h2
    simp only [wfIdsList, Bool.and_eq_true] at h2
    obtain ⟨c, hc, hci⟩ := ih h2.1
    exact ⟨c, by simpa [CollectionResults.decodeLast] using hc,
           by rw [hci]; rfl⟩
  · intro head x xs ih _ h2
    simp only [wfIdsList, Bool.and_eq_true] at h2
    obtain ⟨c, hc, hci⟩ := ih (by simp) (by
      simp only [wfIdsList, Bool.and_eq_true]
      exact h2.2)
    exact ⟨c, by simpa [CollectionResults.decodeLast] using hc, by rw [hci]; rfl⟩
  · intro _
    exact ⟨[], rfl, rfl⟩
  · intro t rest c r heq1 heq2 iht ihrest h
    simp only [wfIdsList, Bool.and_eq_true] at h
    obtain ⟨c2, hc2, hci2⟩ := iht h.1
    obtain ⟨vr, hvr, hvi⟩ := ihrest h.2
    rw [heq2] at hc2
    rw [heq1] at hvr
    injection hc2 with hc2
    injection hvr with hvr
    subst hc2; subst hvr
    refine ⟨c :: r, by simp [CollectionResults.from_message_ids, heq1, heq2], ?_⟩
    simp only [CollectionResults.message_ids, resultIdsList]
    rw [hci2, hvi]
  · intro t rest hfail iht ihrest h
    exfalso
    simp only [wfIdsList, Bool.and_eq_true] at h
    obtain ⟨c2, hc2, _⟩ := iht h.1
    obtain ⟨vr, hvr, _⟩ := ihrest h.2
    exact hfail c2 vr hc2 hvr

/-- C4 counterexample: for pipeline([A, group([B, C])]) the id structure is
["a", ["b", "c"]]; from_message_ids keeps only the trailing id of the list
element, so the view flattens to ["a", "c"], while direct flattening of the
source structure gives ["a", "b", "c"] — the round-trip does not preserve
the id set. -/
theorem c4_counterexample :
    pipeline.message_ids
        [Comp.msg "a" "A", Comp.grp "g" false [Comp.msg "b" "B", Comp.msg "c" "C"]] =
      some [IdTree.id "a", IdTree.l [IdTree.id "b", IdTree.id "c"]] ∧
    CollectionResults.from_message_ids
        [IdTree.id "a", IdTree.l [IdTree.id "b", IdTree.id "c"]] =
      some [RChild.res "a", RChild.res "c"] ∧
    CollectionResults.message_ids [RChild.res "a", RChild.res "c"] = ["a", "c"] ∧
    flattenIds [IdTree.id "a", IdTree.l [IdTree.id "b", IdTree.id "c"]] =
      ["a", "b", "c"] ∧
    (["a", "c"] : List String) ≠ ["a", "b", "c"] :=
  ⟨rfl, rfl, rfl, rfl, by decide⟩

/-- C4 (amended): on any id structure without empty nested lists,
from_message_ids succeeds and flattening the resulting view yields, for each
top-level element in order, the ids of that element's trailing result — the
element itself for a plain id, the last id for a flat sequence (the nested
pipeline's trailing Unit), and recursively the member-result ids of the
trailing group for a sequence ending in a sequence.  The full flatten of the
source structure is preserved only when every element is of that trailing
form (e.g. all plain ids); in general earlier ids of a nested sequence are
dropped (see the counterexample). -/
theorem c4_from_message_ids (ids : List IdTree) (h : wfIdsList ids = true) :
    ∃ view, CollectionResults.from_message_ids ids = some view ∧
      CollectionResults.message_ids view = resultIdsList ids :=
  decode_wf_all.2.2.2 ids h

/-- Witness for C4 (amended) at ["a", ["b", "c"]]. -/
theorem c4_witness :
    wfIdsList [IdTree.id "a", IdTree.l [IdTree.id "b", IdTree.id "c"]] = true ∧
    (∃ view, CollectionResults.from_message_ids
        [IdTree.id "a", IdTree.l [IdTree.id "b", IdTree.id "c"]] = some view ∧
      CollectionResults.message_ids view =
        resultIdsList [IdTree.id "a", IdTree.l [IdTree.id "b", IdTree.id "c"]]) :=
  ⟨by decide,
   c4_from_message_ids [IdTree.id "a", IdTree.l [IdTree.id "b", IdTree.id "c"]]
     (by decide)⟩

/-- Expected outcomes of a recursive entry on one child (only ever a nested
child in the code). -/
def specOutsEntry {V : Type} (f : String → V) : RChild → List (Out V)
  | .res _ => []
  | .coll cs => specOuts f cs

/-- Helper: the drained get loop yields the pending batch's outcomes followed
by one outcome per child in order, and its fetch trace realizes exactly the
spec-side batching (consecutive leaves in one fetch, flush before
recursion). -/
theorem getAux_outs_batches {V : Type} (f : String → V) (dur : List String → Nat)
    (blk roe fg : Bool) :
    (∀ (dl : Option Nat) (cs : List RChild) (pending : List String)
       (timeout : Option Nat) (t : Nat),
      (CollectionResults.getAux f dur blk roe fg dl cs pending timeout t).1 =
        pending.map (fun i => Out.val (f i)) ++ specOuts f cs ∧
      evIds (CollectionResults.getAux f dur blk roe fg dl cs pending timeout t).2.1 =
        specBatches cs pending) ∧
    (∀ (child : RChild) (timeout : Option Nat) (t0 : Nat),
      (CollectionResults.getEntry f dur blk roe fg child timeout t0).1 =
        specOutsEntry f child ∧
      evIds (CollectionResults.getEntry f dur blk roe fg child timeout t0).2.1 =
        specBatchesChild child) := by
  refine CollectionResults.getAux.mutual_induct f dur blk roe fg
    (fun dl cs pending timeout t =>
      (CollectionResults.getAux f dur blk roe fg dl cs pending timeout t).1 =
        pending.map (fun i => Out.val (f i)) ++ specOuts f cs ∧
      evIds (CollectionResults.getAux f dur blk roe fg dl cs pending timeout t).2.1 =
        specBatches cs pending)
    (fun child timeout t0 =>
      (CollectionResults.getEntry f dur blk roe fg child timeout t0).1 =
        specOutsEntry f child ∧
      evIds (CollectionResults.getEntry f dur blk roe fg child timeout t0).2.1 =
        specBatchesChild child)
    ?_ ?_ ?_ ?_ ?_ ?_
  · intro cs timeout t0 ih
    constructor
    · simpa [CollectionResults.getEntry, specOutsEntry] using ih.1
    · simpa [CollectionResults.getEntry, specBatchesChild] using ih.2
  · intro i x t0
    exact ⟨rfl, rfl⟩
  · intro x pending timeout t hp
    rw [List.isEmpty_iff] at hp
    subst hp
    constructor
    · simp [CollectionResults.getAux, specOuts]
    · simp [CollectionResults.getAux, specBatches, evIds]
  · intro x pending timeout t hp
    have hp2 : pending.isEmpty = false := by
      cases h : pending.isEmpty
      · rfl
      · exact absurd h hp
    constructor
    · simp [CollectionResults.getAux, hp2, specOuts]
    · simp [CollectionResults.getAux, hp2, specBatches, evIds, evIdsOne]
  · intro dl rest pending timeout t timeout1 i ih
    constructor
    · simp only [CollectionResults.getAux]
      rw [ih.1]
      simp [specOuts, specOut]
    · simp only [CollectionResults.getAux]
      rw [ih.2]
      simp [specBatches]
  · intro dl rest pending timeout t timeout1 cs flush outsN evsN t2 outsR evsR t3
    intro heqR heqN ihN ihR
    have hfl : flush =
        (if pending.isEmpty = true then (([] : List (Out V)), ([] : List CallEv), t)
         else (pending.map (fun i => Out.val (f i)),
               [CallEv.fetch ⟨pending, blk, timeout1, roe, fg, t⟩],
               t + dur pending)) := rfl
    have houts :
        (CollectionResults.getAux f dur blk roe fg dl (RChild.coll cs :: rest)
            pending timeout t).1 =
          flush.1 ++ Out.nested outsN :: outsR := by
      simp only [CollectionResults.getAux]
      rw [heqN, heqR]
    have hevs :
        (CollectionResults.getAux f dur blk roe fg dl (RChild.coll cs :: rest)
            pending timeout t).2.1 =
          flush.2.1 ++ CallEv.nest timeout1 t flush.2.2 evsN :: evsR := by
      simp only [CollectionResults.getAux]
      rw [heqN, heqR]
    rw [hfl] at houts hevs
    rw [heqN] at ihN
    rw [heqR] at ihR
    have ihN1 : outsN = specOutsEntry f (RChild.coll cs) := ihN.1
    have ihN2 : evIds evsN = specBatchesChild (RChild.coll cs) := ihN.2
    have ihR1 : outsR = List.map (fun i => Out.val (f i)) [] ++ specOuts f rest := ihR.1
    have ihR2 : evIds evsR = specBatches rest [] := ihR.2
    constructor
    · rw [houts, ihN1, ihR1]
      cases hp : pending.isEmpty
      · simp [hp, specOuts, specOut, specOutsEntry]
      · rw [List.isEmpty_iff] at hp
        subst hp
        simp [specOuts, specOut, specOutsEntry]
    · rw [hevs]
      cases hp : pending.isEmpty
      · simp only [hp, Bool.false_eq_true, if_false, List.cons_append, List.nil_append,
                   evIds, evIdsOne]
        rw [ihN2, ihR2]
        simp [hp, specBatches]
      · rw [List.isEmpty_iff] at hp
        subst hp
        simp only [List.isEmpty_nil, if_true, List.nil_append, evIds, evIdsOne]
        rw [ihN2, ihR2]
        simp [specBatches]

/-- C2: a drained get() yields exactly one outcome per top-level child in
child order — a nested CollectionResults child contributing its fully
materialized outcome list as a single element — and its backend fetches are
exactly the spec batches: each maximal run of consecutive leaf children in
one multi-id call, with any pending batch flushed before recursing into a
nested child. -/
theorem c2_get_outputs_and_batches {V : Type} (f : String → V)
    (dur : List String → Nat) (blk roe fg : Bool) (children : List RChild)
    (timeout : Option Nat) (t0 : Nat) :
    (CollectionResults.getRun f dur blk roe fg children timeout t0).1 =
      specOuts f children ∧
    evIds (CollectionResults.getRun f dur blk roe fg children timeout t0).2.1 =
      specBatches children [] := by
  have h := (getAux_outs_batches f dur blk roe fg).1
    (match timeout with
     | some v => if v = 0 then none else some (t0 + v)
     | none => none)
    children [] timeout t0
  constructor
  · have := h.1
    simpa [CollectionResults.getRun] using this
  · have := h.2
    simpa [CollectionResults.getRun] using this

/-- Timeout discipline of a trace event relative to an effective deadline d:
a fetch carries exactly the remaining budget at its issuance clock; a nested
recursive get carries the remaining budget computed at the start of its
child's loop iteration (t_iter, which may precede the flush fetch issued in
the same iteration), and its own subtrace is disciplined with respect to the
deadline it derives from that possibly stale value (entry clock plus passed
timeout). -/
inductive GoodEv : Nat → CallEv → Prop where
  | fetch (d : Nat) (r : FetchCall) :
      r.timeout = some (d - r.t_issue) → GoodEv d (.fetch r)
  | nest (d t_iter t_issue : Nat) (sub : List CallEv) :
      t_iter ≤ t_issue →
      (∀ e ∈ sub, GoodEv (t_issue + (d - t_iter)) e) →
      GoodEv d (.nest (some (d - t_iter)) t_iter t_issue sub)

/-- Helper: the drained get clock never decreases. -/
theorem getAux_mono {V : Type} (f : String → V) (dur : List String → Nat)
    (blk roe fg : Bool) :
    (∀ (dl : Option Nat) (cs : List RChild) (pending : List String)
       (timeout : Option Nat) (t : Nat),
      t ≤ (CollectionResults.getAux f dur blk roe fg dl cs pending timeout t).2.2) ∧
    (∀ (child : RChild) (timeout : Option Nat) (t0 : Nat),
      t0 ≤ (CollectionResults.getEntry f dur blk roe fg child timeout t0).2.2) := by
  refine CollectionResults.getAux.mutual_induct f dur blk roe fg
    (fun dl cs pending timeout t =>
      t ≤ (CollectionResults.getAux f dur blk roe fg dl cs pending timeout t).2.2)
    (fun child timeout t0 =>
      t0 ≤ (CollectionResults.getEntry f dur blk roe fg child timeout t0).2.2)
    ?_ ?_ ?_ ?_ ?_ ?_
  · intro cs timeout t0 ih
    simpa [CollectionResults.getEntry] using ih
  · intro i x t0
    simp [CollectionResults.getEntry]
  · intro x pending timeout t hp
    simp [CollectionResults.getAux, hp]
  · intro x pending timeout t hp
    have hp2 : pending.isEmpty = false := by
      cases h : pending.isEmpty
      · rfl
      · exact absurd h hp
    simp only [CollectionResults.getAux, hp2, Bool.false_eq_true, if_false]
    exact Nat.le_add_right t (dur pending)
  · intro dl rest pending timeout t timeout1 i ih
    simpa [CollectionResults.getAux] using ih
  · intro dl rest pending timeout t timeout1 cs flush outsN evsN t2 outsR evsR t3
    intro heqR heqN ihN ihR
    have hfin : (CollectionResults.getAux f dur blk roe fg dl
        (RChild.coll cs :: rest) pending timeout t).2.2 = t3 := by
      simp only [CollectionResults.getAux]
      rw [heqN, heqR]
    rw [hfin]
    have h1 : t ≤ flush.2.2 := by
      have hfl : flush =
          (if pending.isEmpty = true then (([] : List (Out V)), ([] : List CallEv), t)
           else (pending.map (fun i => Out.val (f i)),
                 [CallEv.fetch ⟨pending, blk, timeout1, roe, fg, t⟩],
                 t + dur pending)) := rfl
      rw [hfl]
      cases hp : pending.isEmpty
      · simp only [hp, Bool.false_eq_true, if_false]
        exact Nat.le_add_right t (dur pending)
      · simp
    have h2 : flush.2.2 ≤ t2 := by
      have := ihN
      rw [heqN] at this
      exact this
    have h3 : t2 ≤ t3 := by
      have := ihR
      rw [heqR] at this
      exact this
    exact le_trans h1 (le_trans h2 h3)

/-- Helper: a get run whose deadline is already exhausted (timeout 0, so the
Python truthiness check disables the deadline and every fetch inherits the
original `some 0`) is disciplined with respect to any effective deadline not
after its entry clock. -/
theorem getAux_zero {V : Type} (f : String → V) (dur : List String → Nat)
    (blk roe fg : Bool) :
    (∀ (dl : Option Nat) (cs : List RChild) (pending : List String)
       (timeout : Option Nat) (t : Nat),
      dl = none → timeout = some 0 →
      ∀ d2, d2 ≤ t →
      ∀ e ∈ (CollectionResults.getAux f dur blk roe fg dl cs pending timeout t).2.1,
        GoodEv d2 e) ∧
    (∀ (child : RChild) (timeout : Option Nat) (t0 : Nat),
      timeout = some 0 →
      ∀ d2, d2 ≤ t0 →
      ∀ e ∈ (CollectionResults.getEntry f dur blk roe fg child timeout t0).2.1,
        GoodEv d2 e) := by
  refine CollectionResults.getAux.mutual_induct f dur blk roe fg
    (fun dl cs pending timeout t =>
      dl = none → timeout = some 0 →
      ∀ d2, d2 ≤ t →
      ∀ e ∈ (CollectionResults.getAux f dur blk roe fg dl cs pending timeout t).2.1,
        GoodEv d2 e)
    (fun child timeout t0 =>
      timeout = some 0 →
      ∀ d2, d2 ≤ t0 →
      ∀ e ∈ (CollectionResults.getEntry f dur blk roe fg child timeout t0).2.1,
        GoodEv d2 e)
    ?_ ?_ ?_ ?_ ?_ ?_
  · intro cs timeout t0 ih htv d2 hd2 e he
    subst htv
    exact ih rfl rfl d2 hd2 e (by simpa [CollectionResults.getEntry] using he)
  · intro i x t0 _ d2 _ e he
    simp [CollectionResults.getEntry] at he
  · intro x pending timeout t hp _ _ d2 _ e he
    simp [CollectionResults.getAux, hp] at he
  · intro x pending timeout t hp hdl htv d2 hd2 e he
    subst htv
    have hp2 : pending.isEmpty = false := by
      cases h : pending.isEmpty
      · rfl
      · exact absurd h hp
    simp only [CollectionResults.getAux, hp2, Bool.false_eq_true, if_false,
               List.mem_singleton] at he
    subst he
    have h0 : (some 0 : Option Nat) = some (d2 - t) := by
      rw [Nat.sub_eq_zero_of_le hd2]
    exact GoodEv.fetch d2 _ h0
  · intro dl rest pending timeout t timeout1 i ih hdl htv d2 hd2 e he
    subst hdl
    refine ih rfl ?_ d2 hd2 e (by simpa [CollectionResults.getAux] using he)
    exact htv
  · intro dl rest pending timeout t timeout1 cs flush outsN evsN t2 outsR evsR t3
    intro heqR heqN ihN ihR hdl htv d2 hd2 e he
    subst hdl
    subst htv
    have ht1 : timeout1 = (some 0 : Option Nat) := rfl
    have hfl : flush =
        (if pending.isEmpty = true then (([] : List (Out V)), ([] : List CallEv), t)
         else (pending.map (fun i => Out.val (f i)),
               [CallEv.fetch ⟨pending, blk, timeout1, roe, fg, t⟩],
               t + dur pending)) := rfl
    have hflush2 : t ≤ flush.2.2 := by
      rw [hfl]
      cases hp : pending.isEmpty
      · simp only [hp, Bool.false_eq_true, if_false]
        exact Nat.le_add_right t (dur pending)
      · simp
    have hevs :
        (CollectionResults.getAux f dur blk roe fg none (RChild.coll cs :: rest)
            pending (some 0) t).2.1 =
          flush.2.1 ++ CallEv.nest timeout1 t flush.2.2 evsN :: evsR := by
      simp only [CollectionResults.getAux]
      rw [heqN, heqR]
    rw [hevs] at he
    have ht2 : flush.2.2 ≤ t2 := by
      have := (getAux_mono f dur blk roe fg).2 (RChild.coll cs) timeout1 flush.2.2
      rw [heqN] at this
      exact this
    rcases List.mem_append.mp he with he1 | he2
    · rw [hfl] at he1
      cases hp : pending.isEmpty
      · rw [hp] at he1
        simp only [Bool.false_eq_true, if_false, List.mem_singleton] at he1
        subst he1
        have h0 : timeout1 = some (d2 - t) := by
          rw [ht1, Nat.sub_eq_zero_of_le hd2]
        exact GoodEv.fetch d2 _ h0
      · rw [hp] at he1
        simp at he1
    · rcases List.mem_cons.mp he2 with he3 | he4
      · subst he3
        have hsub : ∀ e2 ∈ evsN, GoodEv (flush.2.2 + (d2 - t)) e2 := by
          intro e2 he2m
          have hz := ihN rfl flush.2.2 (le_refl _) e2 (by rw [heqN]; exact he2m)
          have : flush.2.2 + (d2 - t) = flush.2.2 := by
            rw [Nat.sub_eq_zero_of_le hd2]
            rfl
          rw [this]
          exact hz
        have hev : CallEv.nest timeout1 t flush.2.2 evsN =
            CallEv.nest (some (d2 - t)) t flush.2.2 evsN := by
          rw [ht1, Nat.sub_eq_zero_of_le hd2]
        rw [hev]
        exact GoodEv.nest d2 t flush.2.2 evsN hflush2 hsub
      · refine ihR rfl rfl d2 (le_trans hd2 (le_trans hflush2 ht2)) e ?_
        rw [heqR]
        exact he4

/-- Helper: a get run with an armed deadline d produces a disciplined trace,
provided the current timeout variable matches the remaining budget whenever
the pending batch is non-empty (true initially, re-established at every
iteration). -/
theorem getAux_good {V : Type} (f : String → V) (dur : List String → Nat)
    (blk roe fg : Bool) :
    (∀ (dl : Option Nat) (cs : List RChild) (pending : List String)
       (timeout : Option Nat) (t : Nat),
      ∀ d, dl = some d →
      (pending = [] ∨ timeout = some (d - t)) →
      ∀ e ∈ (CollectionResults.getAux f dur blk roe fg dl cs pending timeout t).2.1,
        GoodEv d e) ∧
    (∀ (child : RChild) (timeout : Option Nat) (t0 : Nat),
      ∀ v, timeout = some v →
      ∀ e ∈ (CollectionResults.getEntry f dur blk roe fg child timeout t0).2.1,
        GoodEv (t0 + v) e) := by
  refine CollectionResults.getAux.mutual_induct f dur blk roe fg
    (fun dl cs pending timeout t =>
      ∀ d, dl = some d →
      (pending = [] ∨ timeout = some (d - t)) →
      ∀ e ∈ (CollectionResults.getAux f dur blk roe fg dl cs pending timeout t).2.1,
        GoodEv d e)
    (fun child timeout t0 =>
      ∀ v, timeout = some v →
      ∀ e ∈ (CollectionResults.getEntry f dur blk roe fg child timeout t0).2.1,
        GoodEv (t0 + v) e)
    ?_ ?_ ?_ ?_ ?_ ?_
  · intro cs timeout t0 ih v htv e he
    subst htv
    by_cases hv : v = 0
    · subst hv
      have hdl : (match (some 0 : Option Nat) with
          | some v => if v = 0 then none else some (t0 + v)
          | none => none) = (none : Option Nat) := rfl
      exact (getAux_zero f dur blk roe fg).1 _ cs [] (some 0) t0 hdl rfl
        (t0 + 0) (Nat.le_refl _) e (by simpa [CollectionResults.getEntry] using he)
    · have hdl : (match (some v : Option Nat) with
          | some v => if v = 0 then none else some (t0 + v)
          | none => none) = some (t0 + v) := by simp [hv]
      exact ih (t0 + v) hdl (Or.inl rfl) e
        (by simpa [CollectionResults.getEntry] using he)
  · intro i x t0 v _ e he
    simp [CollectionResults.getEntry] at he
  · intro x pending timeout t hp d _ _ e he
    simp [CollectionResults.getAux, hp] at he
  · intro x pending timeout t hp d hdl hor e he
    have hp2 : pending.isEmpty = false := by
      cases h : pending.isEmpty
      · rfl
      · exact absurd h hp
    rcases hor with hor1 | hor2
    · subst hor1; simp at hp2
    · simp only [CollectionResults.getAux, hp2, Bool.false_eq_true, if_false,
                 List.mem_singleton] at he
      subst he
      exact GoodEv.fetch d _ hor2
  · intro dl rest pending timeout t timeout1 i ih d hdl _ e he
    subst hdl
    exact ih d rfl (Or.inr rfl) e (by simpa [CollectionResults.getAux] using he)
  · intro dl rest pending timeout t timeout1 cs flush outsN evsN t2 outsR evsR t3
    intro heqR heqN ihN ihR d hdl _ e he
    subst hdl
    have ht1 : timeout1 = (some (d - t) : Option Nat) := rfl
    have hfl : flush =
        (if pending.isEmpty = true then (([] : List (Out V)), ([] : List CallEv), t)
         else (pending.map (fun i => Out.val (f i)),
               [CallEv.fetch ⟨pending, blk, timeout1, roe, fg, t⟩],
               t + dur pending)) := rfl
    have hflush2 : t ≤ flush.2.2 := by
      rw [hfl]
      cases hp : pending.isEmpty
      · simp only [hp, Bool.false_eq_true, if_false]
        exact Nat.le_add_right t (dur pending)
      · simp
    have hevs :
        (CollectionResults.getAux f dur blk roe fg (some d) (RChild.coll cs :: rest)
            pending timeout t).2.1 =
          flush.2.1 ++ CallEv.nest timeout1 t flush.2.2 evsN :: evsR := by
      simp only [CollectionResults.getAux]
      rw [heqN, heqR]
    rw [hevs] at he
    rcases List.mem_append.mp he with he1 | he2
    · rw [hfl] at he1
      cases hp : pending.isEmpty
      · rw [hp] at he1
        simp only [Bool.false_eq_true, if_false, List.mem_singleton] at he1
        subst he1
        exact GoodEv.fetch d _ ht1
      · rw [hp] at he1
        simp at he1
    · rcases List.mem_cons.mp he2 with he3 | he4
      · subst he3
        have hsub : ∀ e2 ∈ evsN, GoodEv (flush.2.2 + (d - t)) e2 := by
          intro e2 he2m
          exact ihN (d - t) ht1 e2 (by rw [heqN]; exact he2m)
        rw [ht1]
        exact GoodEv.nest d t flush.2.2 evsN hflush2 hsub
      · refine ihR d rfl (Or.inl rfl) e ?_
        rw [heqR]
        exact he4

/-- C3 counterexample: get([Result("a"), CollectionResults([Result("b")])])
with timeout 1000 starting at clock 0, where the flush fetch of ["a"] takes
100 ms.  The deadline is 1000; the recursive nested get is entered at clock
100 but receives timeout 1000 — the value recomputed at the start of the
iteration, before the flush — not max(0, deadline - now) = 900 at the moment
the recursive call is issued. -/
theorem c3_counterexample :
    (CollectionResults.getRun (fun s => s) (fun _ => 100) true true false
        [RChild.res "a", RChild.coll [RChild.res "b"]] (some 1000) 0).2.1 =
      [CallEv.fetch ⟨["a"], true, some 1000, true, false, 0⟩,
       CallEv.nest (some 1000) 0 100
         [CallEv.fetch ⟨["b"], true, some 1000, true, false, 100⟩]] ∧
    some (1000 - 100) ≠ (some 1000 : Option Nat) :=
  ⟨rfl, by decide⟩

/-- C3 (amended): one deadline t0 + v is computed at call start; every flat
batch fetch (including the final flush) receives exactly
max(0, deadline - now) measured at its issuance clock; every recursive
nested get receives max(0, deadline - now) measured at the start of its
child's loop iteration — recomputed from the deadline, never the stale
original value, but possibly before the flush fetch issued in the same
iteration, so the nested call's own deadline (entry clock plus passed
timeout) can drift past the caller's by that flush's duration; the nested
trace is disciplined with respect to that drifted deadline, recursively
(`GoodEv`). -/
theorem c3_timeout_discipline {V : Type} (f : String → V)
    (dur : List String → Nat) (blk roe fg : Bool) (children : List RChild)
    (v t0 : Nat) (hv : v ≠ 0) :
    ∀ e ∈ (CollectionResults.getRun f dur blk roe fg children (some v) t0).2.1,
      GoodEv (t0 + v) e := by
  intro e he
  have hdl : (match (some v : Option Nat) with
      | some v => if v = 0 then none else some (t0 + v)
      | none => none) = some (t0 + v) := by simp [hv]
  refine (getAux_good f dur blk roe fg).1 _ children [] (some v) t0
    (t0 + v) hdl (Or.inl rfl) e ?_
  simpa [CollectionResults.getRun] using he

/-- Witness for C3 (amended) at the counterexample's input. -/
theorem c3_witness :
    (1000 : Nat) ≠ 0 ∧
    (∀ e ∈ (CollectionResults.getRun (fun s => s) (fun _ => 100) true true false
        [RChild.res "a", RChild.coll [RChild.res "b"]] (some 1000) 0).2.1,
      GoodEv (0 + 1000) e) :=
  ⟨by decide,
   c3_timeout_discipline (fun s => s) (fun _ => 100) true true false
     [RChild.res "a", RChild.coll [RChild.res "b"]] 1000 0 (by decide)⟩
